import Mathlib

/-
Verification of standup_snitch.py against its specification.

The script is a linear pipeline: fetch channel history, filter it to
well-formed messages, fold the messages into a per-user presence map,
render a two-part text report.  The pure computations of the script are
embedded below; network and file I/O appear as explicit parameters
(the raw API response) or as output traces (calls made, text printed).

Python dicts are insertion-ordered maps; they are embedded as ordered
association lists.  Assignment d[k] = v replaces the value in place when
k is already a key and appends the pair otherwise; equality of dicts in
Python compares the key-to-value mappings, ignoring order.
-/

/-- Roster record, as built by read_config_files from one row of the user
file: fields user_name, real_name, user_id. -/
structure UserInfo where
  user_name : String
  real_name : String
  user_id : String
deriving DecidableEq

/-- Filtered message record produced by get_message_history: the user id
and the timestamp (Slack delivers ts as a string; the script only passes
it through). -/
structure Message where
  user : String
  ts : String
deriving DecidableEq

/-- Raw record of the channels.history response.  Every Slack event
carries a type field; the user and ts fields may be absent, which the
script checks before projecting them. -/
structure RawMessage where
  type : String
  user : Option String
  ts : Option String
deriving DecidableEq

/-- Lookup d[k] in a Python dict embedded as an ordered association list:
the value of the first pair whose key is k, if any. -/
def dictGet? {α : Type} (d : List (String × α)) (k : String) : Option α :=
  match d with
  | [] => none
  | p :: rest => if p.1 = k then some p.2 else dictGet? rest k

/-- Python dict assignment d[k] = v: replace the value in place when k is
already a key, append the pair (k, v) otherwise.  Assignment never
raises. -/
def dictInsert {α : Type} (d : List (String × α)) (k : String) (v : α) :
    List (String × α) :=
  if d.any fun p => p.1 == k then
    d.map fun p => if p.1 = k then (k, v) else p
  else
    d ++ [(k, v)]

/-- Python equality of two dicts: the same key-to-value mapping,
insertion order ignored. -/
def dictEquiv {α : Type} (d1 d2 : List (String × α)) : Prop :=
  ∀ k, dictGet? d1 k = dictGet? d2 k

/-- Filtering step of get_message_history (the list comprehension over
history_raw, lines 52 to 56): keep records whose type is the plain
message type and which carry both a user and a ts, and project those two
fields.  The network call and the debug dump are I/O; the raw response
list is the parameter here. -/
def get_message_history (history_raw : List RawMessage) : List Message :=
  history_raw.filterMap fun message =>
    if message.type == "message" && message.user.isSome && message.ts.isSome
    then
      match message.user, message.ts with
      | some u, some t => some { user := u, ts := t }
      | _, _ => none
    else none

/-- Presence aggregation (lines 58 to 71).  The dict starts with every
roster key mapped to False; then every message assigns True at its user
id.  The Python source wraps the assignment in try/except KeyError with
the intent of skipping untracked posters, but dict assignment never
raises KeyError — it inserts — so the except branch is dead and an
untracked poster is inserted into the dict. -/
def aggregate_activity (history : List Message)
    (users : List (String × UserInfo)) : List (String × Bool) :=
  let init := users.foldl (fun d u => dictInsert d u.1 false) []
  history.foldl (fun d m => dictInsert d m.user true) init

/-- Text rendering of one user: real_name, space, user_name in
parentheses (line 37). -/
def format_user_for_text (user_id : String) (user_info : UserInfo) :
    String :=
  user_info.real_name ++ " (" ++ user_info.user_name ++ ")"

/-- The list comprehension building tag_items (lines 83 to 84): look
every user id up in the roster and render it.  The lookup users[user_id]
raises KeyError when the id is not a roster key; the whole computation
is therefore Option-valued. -/
def lookupAll (users : List (String × UserInfo)) :
    List String → Option (List String)
  | [] => some []
  | uid :: rest => do
      let info ← dictGet? users uid
      let tail ← lookupAll users rest
      pure (format_user_for_text uid info :: tail)

/-- Conclusion builder (lines 76 to 85): collect the user ids whose
presence entry is False, in dict iteration order; with no such id return
the fixed congratulation, otherwise join the rendered users with comma,
space, newline. -/
def make_conclusion (active_users : List (String × Bool))
    (users : List (String × UserInfo)) : Option String :=
  let non_posters :=
    (active_users.filter fun p => p.2 == false).map Prod.fst
  if non_posters.length = 0 then
    some "Go team!"
  else
    (lookupAll users non_posters).map (String.intercalate ", \n")

/-- One step of straight-line Python with exceptions: either a raise
statement or a call to the Slack API. -/
inductive Step where
  | raiseStep (msg : String)
  | slackCall (endpoint : String) (args : List (String × String))

/-- Execute straight-line steps: a raise aborts, so nothing after it
runs.  Returns the Slack calls actually made and the exception message,
if one was raised. -/
def execSteps :
    List Step → List (String × List (String × String)) × Option String
  | [] => ([], none)
  | Step.raiseStep m :: _ => ([], some m)
  | Step.slackCall e a :: rest =>
      let r := execSteps rest
      ((e, a) :: r.1, r.2)

/-- Body of post_message (lines 87 to 93): the raise statement first,
then the chat.postMessage call that would follow it. -/
def post_message (token channel text bot_name : String) :
    List (String × List (String × String)) × Option String :=
  execSteps
    [Step.raiseStep "TRIED TO POST A MESSAGE TO SLACK!",
     Step.slackCall "chat.postMessage"
       [("token", token), ("channel", channel), ("text", text),
        ("username", bot_name)]]

/-- Model of DT.timedelta(days = n), measured in seconds: one day is
86400 seconds. -/
def timedelta_days (n : ℤ) : ℚ := (n : ℚ) * 86400

/-- Model of DT.timedelta(seconds = s), measured in seconds. -/
def timedelta_seconds (s : ℚ) : ℚ := s

/-- Model of DT.datetime(1970, 1, 1): datetimes are measured as rational
seconds since that epoch, so the epoch itself is 0. -/
def epoch_datetime : ℚ := 0

/-- Cutoff computation (lines 129 to 134), with now passed in as the
current datetime in seconds since the epoch: subtract n_days days, then
divide the offset from the epoch by one second. -/
def timestamp_for_days_ago (now : ℚ) (n_days : ℤ) : ℚ :=
  let week_ago := now - timedelta_days n_days
  (week_ago - epoch_datetime) / timedelta_seconds 1

/-- Assembly of the full report (line 169): the introduction and the
conclusion joined with a newline. -/
def full_message (introduction conclusion : String) : String :=
  String.intercalate "\n" [introduction, conclusion]

/-- Tail of run (lines 168 to 177): assemble the report, then branch on
dry_run; both branches print the report and neither calls the Slack post
endpoint (the call is commented out in the source).  Returns the lines
printed and the publishes performed. -/
def run_output (dry_run : Bool) (introduction conclusion : String) :
    List String × List String :=
  let fm := full_message introduction conclusion
  if dry_run then ([fm], []) else ([fm], [])

/- Lemmas about the dict embedding. -/

theorem dictGet_map_replace {α : Type} (d : List (String × α)) (k : String)
    (v : α) (k' : String) (hne : k' ≠ k) :
    dictGet? (d.map fun p => if p.1 = k then (k, v) else p) k'
      = dictGet? d k' := by
  induction d with
  | nil => rfl
  | cons p rest ih =>
    simp only [List.map_cons, dictGet?]
    by_cases hp : p.1 = k
    · have h1 : ¬ (k = k') := fun h => hne h.symm
      have h2 : ¬ (p.1 = k') := by rw [hp]; exact h1
      simp [hp, h1, h2, ih]
    · by_cases hq : p.1 = k'
      · simp [hp, hq, hne]
      · simp [hp, hq, ih]

theorem dictGet_map_replace_self {α : Type} (d : List (String × α))
    (k : String) (v : α) (h : ∃ p ∈ d, p.1 = k) :
    dictGet? (d.map fun p => if p.1 = k then (k, v) else p) k = some v := by
  induction d with
  | nil => simp at h
  | cons p rest ih =>
    simp only [List.map_cons, dictGet?]
    by_cases hp : p.1 = k
    · simp [hp]
    · have : ∃ q ∈ rest, q.1 = k := by
        rcases h with ⟨q, hq, hqk⟩
        rcases List.mem_cons.mp hq with rfl | hmem
        · exact absurd hqk hp
        · exact ⟨q, hmem, hqk⟩
      simp [hp, ih this]

theorem dictGet_append {α : Type} (d e : List (String × α)) (k : String) :
    dictGet? (d ++ e) k
      = match dictGet? d k with
        | some v => some v
        | none => dictGet? e k := by
  induction d with
  | nil => rfl
  | cons p rest ih =>
    simp only [List.cons_append, dictGet?]
    by_cases hp : p.1 = k
    · simp [hp]
    · simp [hp, ih]

theorem dictGet_eq_none {α : Type} (d : List (String × α)) (k : String) :
    dictGet? d k = none ↔ ∀ p ∈ d, p.1 ≠ k := by
  induction d with
  | nil => simp [dictGet?]
  | cons p rest ih =>
    simp only [dictGet?]
    by_cases hp : p.1 = k
    · simp [hp]
    · simp [hp, ih]

theorem dictGet_dictInsert {α : Type} (d : List (String × α)) (k : String)
    (v : α) (k' : String) :
    dictGet? (dictInsert d k v) k'
      = if k' = k then some v else dictGet? d k' := by
  unfold dictInsert
  by_cases hany : (d.any fun p => p.1 == k) = true
  · rw [if_pos hany]
    by_cases hk : k' = k
    · subst hk
      rw [if_pos rfl]
      rcases List.any_eq_true.mp hany with ⟨p, hp, hpk⟩
      exact dictGet_map_replace_self d k' v ⟨p, hp, eq_of_beq hpk⟩
    · rw [if_neg hk]
      exact dictGet_map_replace d k v k' hk
  · rw [if_neg hany]
    have habs : ∀ p ∈ d, p.1 ≠ k := by
      intro p hp hpk
      exact hany (List.any_eq_true.mpr ⟨p, hp, by simp [hpk]⟩)
    rw [dictGet_append]
    by_cases hk : k' = k
    · subst hk
      rw [(dictGet_eq_none d k').mpr (fun p hp h => habs p hp h)]
      simp [dictGet?]
    · have h2 : ¬ (k = k') := fun h => hk h.symm
      cases h : dictGet? d k' with
      | some w => simp [hk]
      | none => simp [dictGet?, hk, h2]

theorem foldl_insert_const_lookup {α β : Type} (f : β → String) (v : α)
    (l : List β) (d : List (String × α)) (k : String) :
    dictGet? (l.foldl (fun d x => dictInsert d (f x) v) d) k
      = if l.any (fun x => f x == k) then some v else dictGet? d k := by
  induction l generalizing d with
  | nil => simp
  | cons x rest ih =>
    simp only [List.foldl_cons, List.any_cons]
    rw [ih, dictGet_dictInsert]
    by_cases hx : f x = k
    · by_cases hr : (rest.any fun x => f x == k) = true
      · simp [hx, hr]
      · simp [hx, hr]
    · have h2 : ¬ (k = f x) := fun h => hx h.symm
      by_cases hr : (rest.any fun x => f x == k) = true
      · simp [hx, hr]
      · simp [hx, h2, hr]

theorem aggregate_lookup (M : List Message)
    (users : List (String × UserInfo)) (k : String) :
    dictGet? (aggregate_activity M users) k
      = if M.any (fun m => m.user == k) then some true
        else if users.any (fun u => u.1 == k) then some false
        else none := by
  unfold aggregate_activity
  rw [foldl_insert_const_lookup, foldl_insert_const_lookup]
  rfl

theorem mem_dictInsert {α : Type} {p : String × α} {d : List (String × α)}
    {k : String} {v : α} (h : p ∈ dictInsert d k v) :
    p ∈ d ∨ p = (k, v) := by
  unfold dictInsert at h
  by_cases hany : (d.any fun q => q.1 == k) = true
  · rw [if_pos hany] at h
    rcases List.mem_map.mp h with ⟨q, hq, hqp⟩
    by_cases hqk : q.1 = k
    · right; rw [← hqp]; simp [hqk]
    · left; rw [← hqp]; simpa [hqk] using hq
  · rw [if_neg hany] at h
    rcases List.mem_append.mp h with h1 | h1
    · exact Or.inl h1
    · right; simpa using h1

theorem mem_foldl_insert {α β : Type} (f : β → String) (v : α)
    (l : List β) (d : List (String × α)) {p : String × α}
    (h : p ∈ l.foldl (fun d x => dictInsert d (f x) v) d) :
    p ∈ d ∨ (p.2 = v ∧ p.1 ∈ l.map f) := by
  induction l generalizing d with
  | nil => exact Or.inl h
  | cons x rest ih =>
    simp only [List.foldl_cons] at h
    rcases ih (dictInsert d (f x) v) h with h1 | ⟨hv, hk⟩
    · rcases mem_dictInsert h1 with h2 | h2
      · exact Or.inl h2
      · right
        rw [h2]
        exact ⟨rfl, by simp⟩
    · right
      exact ⟨hv, by simp [hk]⟩

theorem aggregate_false_mem (M : List Message)
    (users : List (String × UserInfo)) {p : String × Bool}
    (h : p ∈ aggregate_activity M users) (hf : p.2 = false) :
    p.1 ∈ users.map Prod.fst := by
  unfold aggregate_activity at h
  rcases mem_foldl_insert _ _ _ _ h with h1 | ⟨hv, _⟩
  · rcases mem_foldl_insert _ _ _ _ h1 with h2 | ⟨_, hk⟩
    · simp at h2
    · simpa using hk
  · rw [hf] at hv
    exact absurd hv (by simp)

theorem dictGet_isSome_of_mem_keys {α : Type} (d : List (String × α))
    (k : String) (h : k ∈ d.map Prod.fst) : (dictGet? d k).isSome := by
  induction d with
  | nil => simp at h
  | cons p rest ih =>
    simp only [dictGet?]
    by_cases hp : p.1 = k
    · simp [hp]
    · rcases List.mem_map.mp h with ⟨q, hq, hqk⟩
      rcases List.mem_cons.mp hq with rfl | hmem
      · exact absurd hqk hp
      · simp [hp, ih (List.mem_map.mpr ⟨q, hmem, hqk⟩)]

theorem lookupAll_eq (users : List (String × UserInfo)) (l : List String)
    (h : ∀ u ∈ l, (dictGet? users u).isSome) :
    lookupAll users l
      = some (l.map fun uid =>
          ((dictGet? users uid).map (format_user_for_text uid)).getD "") := by
  induction l with
  | nil => rfl
  | cons uid rest ih =>
    have h1 : (dictGet? users uid).isSome := h uid (by simp)
    rcases Option.isSome_iff_exists.mp h1 with ⟨info, hinfo⟩
    have h2 := ih (fun u hu => h u (List.mem_cons_of_mem _ hu))
    simp [lookupAll, hinfo, h2]

theorem perm_any {α : Type} {l1 l2 : List α} (h : l1.Perm l2)
    (p : α → Bool) : l1.any p = l2.any p := by
  cases h1 : l1.any p with
  | true =>
    rcases List.any_eq_true.mp h1 with ⟨x, hx, hp⟩
    exact (List.any_eq_true.mpr ⟨x, h.mem_iff.mp hx, hp⟩).symm
  | false =>
    cases h2 : l2.any p with
    | true =>
      rcases List.any_eq_true.mp h2 with ⟨x, hx, hp⟩
      rw [← h1]
      exact List.any_eq_true.mpr ⟨x, h.mem_iff.mpr hx, hp⟩
    | false => rfl

/- Concrete values used by the evaluation and witness theorems. -/

def aliceInfo : UserInfo :=
  { user_name := "alice", real_name := "Alice", user_id := "U1" }

def bobInfo : UserInfo :=
  { user_name := "bob", real_name := "Bob", user_id := "U2" }

def rosterEx : List (String × UserInfo) := [("U1", aliceInfo), ("U2", bobInfo)]

def msgA : Message := { user := "U1", ts := "1" }

def msgB : Message := { user := "U2", ts := "2" }

/-- C1: evaluating aggregate_activity on a roster holding only U1 and a
single message from the untracked user U2 shows the key U2 inserted into
the presence dict with value True, so the key set of the result is
strictly larger than the roster key set and the untracked message did
change the dict.  The dict assignment inside the dead try/except inserts
instead of raising KeyError, contradicting the adjacent source comment
that such posts are skipped. -/
theorem aggregate_activity_inserts_untracked :
    aggregate_activity [{ user := "U2", ts := "1" }] [("U1", aliceInfo)]
      = [("U1", false), ("U2", true)] ∧
    (aggregate_activity [{ user := "U2", ts := "1" }]
        [("U1", aliceInfo)]).map Prod.fst
      ≠ [("U1", aliceInfo)].map Prod.fst := by
  exact ⟨by decide, by decide⟩

/-- C2: a roster user is mapped by aggregate_activity to the boolean
saying whether at least one message of the history carries that user id:
false on zero messages, true on at least one. -/
theorem aggregate_activity_presence (M : List Message)
    (users : List (String × UserInfo)) (u : String)
    (h : u ∈ users.map Prod.fst) :
    dictGet? (aggregate_activity M users) u
      = some (M.any fun m => m.user == u) := by
  rw [aggregate_lookup]
  have husers : (users.any fun p => p.1 == u) = true := by
    rcases List.mem_map.mp h with ⟨p, hp, hpk⟩
    exact List.any_eq_true.mpr ⟨p, hp, by simp [hpk]⟩
  cases hM : M.any fun m => m.user == u with
  | true => simp [hM]
  | false => simp [hM, husers]

/-- Witness for C2: with Alice and Bob on the roster and one message
from U1, the entry of U1 is true and the entry of U2 is false. -/
theorem aggregate_activity_presence_witness :
    "U1" ∈ rosterEx.map Prod.fst ∧
    dictGet? (aggregate_activity [msgA] rosterEx) "U1" = some true ∧
    dictGet? (aggregate_activity [msgA] rosterEx) "U2" = some false := by
  refine ⟨by decide, ?_, ?_⟩
  · rw [aggregate_activity_presence [msgA] rosterEx "U1" (by decide)]
    decide
  · rw [aggregate_activity_presence [msgA] rosterEx "U2" (by decide)]
    decide

/-- C3: aggregate_activity applied to two permuted histories yields the
same presence dict, equality of dicts read the Python way as equality of
the key-to-value mappings. -/
theorem aggregate_activity_perm_invariant (M1 M2 : List Message)
    (users : List (String × UserInfo)) (h : M1.Perm M2) :
    dictEquiv (aggregate_activity M1 users) (aggregate_activity M2 users) := by
  intro k
  rw [aggregate_lookup, aggregate_lookup, perm_any h]

/-- Witness for C3: the two-message history and its swap give the same
lookup at U2. -/
theorem aggregate_activity_perm_invariant_witness :
    List.Perm [msgA, msgB] [msgB, msgA] ∧
    dictGet? (aggregate_activity [msgA, msgB] rosterEx) "U2"
      = dictGet? (aggregate_activity [msgB, msgA] rosterEx) "U2" :=
  ⟨List.Perm.swap msgB msgA [],
   aggregate_activity_perm_invariant [msgA, msgB] [msgB, msgA] rosterEx
     (List.Perm.swap msgB msgA []) "U2"⟩

/-- C4: when every False entry of the presence map has a roster key,
make_conclusion returns the fixed congratulation if no entry is False,
and otherwise the comma-space-newline join of exactly the False users,
each rendered real_name, space, user_name in parentheses, in the
iteration order of the presence map. -/
theorem make_conclusion_spec (pm : List (String × Bool))
    (users : List (String × UserInfo))
    (h : ∀ p ∈ pm, p.2 = false → (dictGet? users p.1).isSome) :
    ((∀ p ∈ pm, p.2 = true) → make_conclusion pm users = some "Go team!")
    ∧ ((∃ p ∈ pm, p.2 = false) →
        make_conclusion pm users
          = some (String.intercalate ", \n"
              (((pm.filter fun p => p.2 == false).map Prod.fst).map
                fun uid =>
                  ((dictGet? users uid).map fun info =>
                      info.real_name ++ " (" ++ info.user_name ++ ")").getD
                    ""))) := by
  constructor
  · intro hall
    have hnil : (pm.filter fun p => p.2 == false) = [] := by
      apply List.filter_eq_nil_iff.mpr
      intro p hp
      simp [hall p hp]
    unfold make_conclusion
    rw [hnil]
    rfl
  · intro hex
    have hne : ((pm.filter fun p => p.2 == false).map Prod.fst) ≠ [] := by
      rcases hex with ⟨p, hp, hpf⟩
      have hmem : p ∈ pm.filter fun p => p.2 == false :=
        List.mem_filter.mpr ⟨hp, by simp [hpf]⟩
      intro hcontra
      rw [List.map_eq_nil_iff] at hcontra
      rw [hcontra] at hmem
      simp at hmem
    have hsome : ∀ u ∈ (pm.filter fun p => p.2 == false).map Prod.fst,
        (dictGet? users u).isSome := by
      intro u hu
      rcases List.mem_map.mp hu with ⟨p, hp, hpk⟩
      have hmem := List.mem_filter.mp hp
      exact hpk ▸ h p hmem.1 (by simpa using hmem.2)
    have hlen : ¬ (((pm.filter fun p => p.2 == false).map Prod.fst).length
        = 0) := by
      simpa [List.length_eq_zero] using hne
    unfold make_conclusion
    rw [if_neg hlen, lookupAll_eq _ _ hsome]
    rfl

/-- Witness for C4: with U1 present and U2 absent on the Alice-Bob
roster, the conclusion lists exactly Bob. -/
theorem make_conclusion_spec_witness :
    (∀ p ∈ [("U1", true), ("U2", false)], p.2 = false →
        (dictGet? rosterEx p.1).isSome) ∧
    make_conclusion [("U1", true), ("U2", false)] rosterEx
      = some "Bob (bob)" := by
  refine ⟨by decide, ?_⟩
  rw [(make_conclusion_spec [("U1", true), ("U2", false)] rosterEx
      (by decide)).2 ⟨("U2", false), by decide, rfl⟩]
  rfl

/-- C5: for every integer number of days and every fixed now, given in
seconds since the Unix epoch, the cutoff is now minus that many days,
one day being 86400 seconds, fractional seconds permitted. -/
theorem timestamp_for_days_ago_spec (now : ℚ) (d : ℤ) :
    timestamp_for_days_ago now d = now - (d : ℚ) * 86400 := by
  simp [timestamp_for_days_ago, timedelta_days, timedelta_seconds,
    epoch_datetime]

theorem filterMap_if_eq {α β : Type} (p : α → Bool) (g : α → β)
    (l : List α) :
    l.filterMap (fun a => if p a then some (g a) else none)
      = (l.filter p).map g := by
  induction l with
  | nil => rfl
  | cons a rest ih =>
    by_cases hp : p a = true
    · simp [List.filterMap_cons, List.filter_cons, hp, ih]
    · simp [List.filterMap_cons, List.filter_cons, hp, ih]

/-- C6: the filtering step of get_message_history keeps exactly the
records whose type is the plain message type and which carry both a user
and a ts, projected to those two fields; all other records are
dropped. -/
theorem get_message_history_spec (history_raw : List RawMessage) :
    get_message_history history_raw
      = (history_raw.filter fun m =>
            m.type == "message" && m.user.isSome && m.ts.isSome).map
          fun m => { user := m.user.getD "", ts := m.ts.getD "" } := by
  have hfun : (fun message : RawMessage =>
      if message.type == "message" && message.user.isSome
          && message.ts.isSome
      then
        match message.user, message.ts with
        | some u, some t => some (Message.mk u t)
        | _, _ => none
      else none)
      = fun message : RawMessage =>
        if message.type == "message" && message.user.isSome
            && message.ts.isSome
        then some (Message.mk (message.user.getD "") (message.ts.getD ""))
        else none := by
    funext message
    rcases message with ⟨ty, ou, ot⟩
    rcases ou with _ | u
    · simp
    · rcases ot with _ | t
      · simp
      · simp
  unfold get_message_history
  rw [hfun]
  exact filterMap_if_eq _ _ history_raw

/-- C7: post_message raises the guard exception on every input, and the
trace of Slack calls it makes is empty: the chat.postMessage endpoint is
unreachable. -/
theorem post_message_guard (token channel text bot_name : String) :
    (post_message token channel text bot_name).1 = [] ∧
    (post_message token channel text bot_name).2
      = some "TRIED TO POST A MESSAGE TO SLACK!" :=
  ⟨rfl, rfl⟩

/-- C8: two runs of the output stage that differ only in dry_run print
the same report, and neither run publishes to the output channel. -/
theorem run_output_dry_run_irrelevant (introduction conclusion : String) :
    run_output true introduction conclusion
      = run_output false introduction conclusion ∧
    (run_output true introduction conclusion).2 = [] ∧
    (run_output false introduction conclusion).2 = [] :=
  ⟨rfl, rfl, rfl⟩

/-- C9: the assembled report is the introduction line, a newline
separation, then the conclusion block. -/
theorem full_message_spec (introduction conclusion : String) :
    full_message introduction conclusion
      = introduction ++ "\n" ++ conclusion := rfl

/-- C10: every user id mapped to False by aggregate_activity is a roster
key, and consequently make_conclusion applied to that presence map with
the same roster never fails a roster lookup: it returns a value. -/
theorem make_conclusion_total_on_aggregate (M : List Message)
    (users : List (String × UserInfo)) :
    (∀ p ∈ aggregate_activity M users, p.2 = false →
        p.1 ∈ users.map Prod.fst) ∧
    (make_conclusion (aggregate_activity M users) users).isSome := by
  refine ⟨fun p hp hf => aggregate_false_mem M users hp hf, ?_⟩
  unfold make_conclusion
  by_cases hlen : (((aggregate_activity M users).filter
      fun p => p.2 == false).map Prod.fst).length = 0
  · rw [if_pos hlen]
    rfl
  · rw [if_neg hlen]
    have hsome : ∀ u ∈ ((aggregate_activity M users).filter
        fun p => p.2 == false).map Prod.fst, (dictGet? users u).isSome := by
      intro u hu
      rcases List.mem_map.mp hu with ⟨p, hp, hpk⟩
      have hmem := List.mem_filter.mp hp
      have hf : p.2 = false := by simpa using hmem.2
      exact dictGet_isSome_of_mem_keys users u
        (hpk ▸ aggregate_false_mem M users hmem.1 hf)
    rw [lookupAll_eq _ _ hsome]
    rfl
